import Mathlib

/-!
# delete-routes: a shallow embedding of `main.go`

The command line tool resolves a Route 53 hosted zone by name, lists the record
sets of the zone page by page, keeps the address records whose name matches a
regular expression, shows them to the operator and, after a "yes", deletes them
with one change batch.

Modelling conventions.

* Go strings are Lean `String`s; `len(s)` is `String.utf8ByteSize`.
* A Go pointer that the program tests against `nil` is an `Option`.
* The AWS client is a record of response functions (`Route53`); the calls a run
  makes are recorded, in order, in an event log that is threaded through every
  function (`Log`), together with everything written to standard output and
  with the one call of `regexp.MustCompile`.
* The regular expression engine of the Go standard library is a parameter
  `compile : String → Option (String → Bool)`: `none` when the pattern does not
  compile, otherwise the `MatchString` function of the compiled expression.
* `confirm` and `main` take the list of values that the successive
  `fmt.Scanln(&choice)` calls store into `choice`; `Scanln` and `choicesOf`
  compute that list from the text the operator types. Once the input is
  exhausted `Scanln` keeps failing with end-of-file and leaves `choice` empty,
  so the confirmation loop never exits: the run is then `Outcome.blocked` and
  its log ends with the prompt.
* An `Event.call` is an invocation of a client method; the SDK validates the
  parameters of `ChangeResourceRecordSets` before sending, and
  `changeRequestsSent` lists the change batches that are really sent.
* Creating the AWS session and client (lines 16-17) is taken to succeed; it
  sends no request.
* Elements of the slices returned by the SDK are non-nil pointers.
-/

set_option autoImplicit false

namespace DeleteRoutes

/-! ## Data model (the parts of the `route53` package that the program touches) -/

/-- The value of `route53.RRTypeA`. -/
def RRTypeA : String := "A"

/-- The value of `route53.ChangeActionDelete`. -/
def ChangeActionDelete : String := "DELETE"

/-- Errors that reach `main`: an error returned by a remote call, the error of
the SDK's parameter validation (raised before anything is sent), or the error
built by `getZoneID` (`"Couldn't find %s zone."`) for the given zone name. -/
inductive Error where
  | remote (code : String)
  | invalidParameter
  | zoneNotFound (zoneName : String)
deriving DecidableEq, Repr

/-- A record set, `route53.ResourceRecordSet`: `Name` and `Type` (here `Type_`)
are pointers, the rest of the payload (TTL, values, alias target, ...) is kept abstract. -/
structure ResourceRecordSet where
  Name : Option String
  Type_ : Option String
  payload : Nat
deriving DecidableEq, Repr

/-- A zone entry, `route53.HostedZone`. -/
structure HostedZone where
  Id : Option String
  Name : Option String
deriving DecidableEq, Repr

/-- The input of `ListHostedZonesByName`. -/
structure ListHostedZonesByNameInput where
  DNSName : Option String
deriving DecidableEq, Repr

/-- The output of `ListHostedZonesByName`. -/
structure ListHostedZonesByNameOutput where
  HostedZones : List HostedZone
deriving DecidableEq, Repr

/-- The input of `ListResourceRecordSetsPages`. -/
structure ListResourceRecordSetsInput where
  HostedZoneId : Option String
deriving DecidableEq, Repr

/-- One page of the record listing, `route53.ListResourceRecordSetsOutput`. -/
structure ListResourceRecordSetsOutput where
  ResourceRecordSets : List ResourceRecordSet
deriving DecidableEq, Repr

/-- One entry of a change batch, `route53.Change`. -/
structure Change where
  Action : Option String
  ResourceRecordSet : ResourceRecordSet
deriving DecidableEq, Repr

/-- The batch, `route53.ChangeBatch`. -/
structure ChangeBatch where
  Changes : List Change
deriving DecidableEq, Repr

/-- The input of `ChangeResourceRecordSets`. -/
structure ChangeResourceRecordSetsInput where
  HostedZoneId : Option String
  ChangeBatch : ChangeBatch
deriving DecidableEq, Repr

/-- What the paginated listing has in store for one request: the pages it
delivers, each with the last-page flag handed to the callback, and the error of
the page request that follows them, if that request fails. -/
structure PageScript where
  pages : List (ListResourceRecordSetsOutput × Bool)
  err : Option Error

/-- The remote collaborator, `*route53.Route53`: the two listing operations as
response functions, the service's answer to a change batch that is sent, and
the SDK's parameter validation of the part of a record set that is kept
abstract. -/
structure Route53 where
  ListHostedZonesByName :
    ListHostedZonesByNameInput → Except Error ListHostedZonesByNameOutput
  ListResourceRecordSets : ListResourceRecordSetsInput → PageScript
  validPayload : Nat → Bool
  sendChangeBatch : ChangeResourceRecordSetsInput → Option Error

/-- The SDK's `Validate` of a `ChangeResourceRecordSetsInput`: the zone identifier
is present and non-empty, the batch has at least one change, and every change
has an action and a record set with a name, a type and a valid payload. -/
def Validate (validPayload : Nat → Bool) (input : ChangeResourceRecordSetsInput) : Bool :=
  (match input.HostedZoneId with
    | none => false
    | some zoneID => decide (1 ≤ zoneID.utf8ByteSize))
  && decide (1 ≤ input.ChangeBatch.Changes.length)
  && input.ChangeBatch.Changes.all (fun change =>
      change.Action.isSome && change.ResourceRecordSet.Name.isSome
        && change.ResourceRecordSet.Type_.isSome
        && validPayload change.ResourceRecordSet.payload)

/-- The client method `ChangeResourceRecordSets`: the input is validated first;
an invalid input is answered with the validation error and nothing is sent,
a valid one is sent and the service's answer returned. -/
def Route53.ChangeResourceRecordSets (client : Route53)
    (input : ChangeResourceRecordSetsInput) : Option Error :=
  if Validate client.validPayload input then client.sendChangeBatch input
  else some Error.invalidParameter

/-- A remote call issued by the program. -/
inductive Call where
  | ListHostedZonesByName (input : ListHostedZonesByNameInput)
  | ListResourceRecordSetsPages (input : ListResourceRecordSetsInput)
  | ChangeResourceRecordSets (input : ChangeResourceRecordSetsInput)
deriving DecidableEq, Repr

/-- Observable steps of a run, in program order. -/
inductive Event where
  | call (c : Call)
  | mustCompile (pattern : String)
  | printDefaults
  | stdout (text : String)
deriving DecidableEq, Repr

/-- The event log threaded through the program. -/
abbrev Log := List Event

/-- How a run of `main` ends. -/
inductive Outcome where
  | usageExit
  | tooShort
  | fatal (err : Error)
  | panicked
  | noMatches
  | declined
  | deleted
  | blocked
deriving DecidableEq, Repr

/-- The result of a run: the events in order and the way the run ended. -/
structure Run where
  events : Log
  outcome : Outcome
deriving DecidableEq, Repr

/-! ## Library functions used by the program -/

/-- Go `strings.Cut` on character lists, for a non-empty separator: the text
before the leftmost occurrence of `old` and the text after it. -/
def cut (old : List Char) : List Char → Option (List Char × List Char)
  | [] => none
  | c :: cs =>
    if old.isPrefixOf (c :: cs) then some ([], (c :: cs).drop old.length)
    else match cut old cs with
      | some (a, b) => some (c :: a, b)
      | none => none

/-- Go `strings.Replace(s, old, new, n)` on character lists, for a non-empty
`old` and a non-negative limit `n`: the leftmost `n` non-overlapping occurrences
of `old` are replaced by `new`. -/
def replaceChars (old new : List Char) : Nat → List Char → List Char
  | 0, s => s
  | n + 1, s =>
    match cut old s with
    | none => s
    | some (a, b) => a ++ new ++ replaceChars old new n b

/-- Go `strings.Replace` with a non-negative limit. -/
def Replace (s old new : String) (n : Nat) : String :=
  String.mk (replaceChars old.data new.data n s.data)

/-- The white space of Go's `fmt` scanning (`isSpace`). -/
def isSpace (r : Char) : Bool :=
  let n := r.toNat
  (0x0009 ≤ n && n ≤ 0x000d) || n = 0x0020 || n = 0x0085 || n = 0x00a0 || n = 0x1680
    || (0x2000 ≤ n && n ≤ 0x200a) || (0x2028 ≤ n && n ≤ 0x2029) || n = 0x202f
    || n = 0x205f || n = 0x3000

/-- What `SkipSpace` finds in line mode: the end of the input, a newline before
any word (consumed), or the start of a word. -/
inductive Skipped where
  | eof
  | newline (rest : List Char)
  | word (rest : List Char)
deriving DecidableEq, Repr

/-- The method `SkipSpace` of `fmt`, in the mode of `Scanln`. -/
def skipSpace : List Char → Skipped
  | [] => Skipped.eof
  | r :: rest =>
    if r = '\n' then Skipped.newline rest
    else if isSpace r then skipSpace rest
    else Skipped.word (r :: rest)

/-- The check `Scanln` makes after its last operand: input is consumed up to and
including the newline, or up to and including the first rune that is not white
space (the error "expected newline"). -/
def skipToNewline : List Char → List Char
  | [] => []
  | r :: rest =>
    if r = '\n' then rest
    else if isSpace r then skipToNewline rest
    else rest

/-- The call `fmt.Scanln(&choice)` of line 65 on the unread input, with `choice`
empty before the call and the returned error discarded: the value of `choice`
after the call and the input left unread. The word after leading blanks is
stored; on an empty line or at the end of the input nothing is stored. -/
def Scanln (input : List Char) : String × List Char :=
  match skipSpace input with
  | Skipped.eof => ("", [])
  | Skipped.newline rest => ("", rest)
  | Skipped.word rest =>
    (String.mk (rest.takeWhile (fun r => !isSpace r)),
      skipToNewline (rest.dropWhile (fun r => !isSpace r)))

/-- The values that successive `Scanln` calls store into `choice` until the
input is used up; every call on a non-empty input consumes a rune, so fuel
equal to the length of the input reaches the end. -/
def storedChoices : Nat → List Char → List String
  | 0, _ => []
  | _ + 1, [] => []
  | fuel + 1, r :: rest =>
    (Scanln (r :: rest)).1 :: storedChoices fuel (Scanln (r :: rest)).2

/-- The values stored into `choice` for the text the operator types. -/
def choicesOf (typed : String) : List String :=
  storedChoices typed.data.length typed.data

/-- Go `strings.ToLower`, on the ASCII letters. (No rune outside ASCII has one
of the letters of "yes" and "no" as its lower case, so the comparisons made by
the program are not affected by the other runes.) -/
def ToLower (s : String) : String :=
  String.mk (s.data.map Char.toLower)

/-- The SDK pager behind `ListResourceRecordSetsPages`: the callback receives the
delivered pages in order until it returns `false` or the pages run out; the
error of a failed page request is returned only if the callback asked for that
page. The callback's captured variables are the state `σ`. -/
def runPages {σ : Type} (fn : σ → ListResourceRecordSetsOutput → Bool → σ × Bool)
    (err : Option Error) : List (ListResourceRecordSetsOutput × Bool) → σ → σ × Option Error
  | [], s => (s, err)
  | (page, isLastPage) :: rest, s =>
    match fn s page isLastPage with
    | (s', true) => runPages fn err rest s'
    | (s', false) => (s', none)

/-- The flags of a complete listing: only the final page is flagged as last. -/
def flagLast : List ListResourceRecordSetsOutput → List (ListResourceRecordSetsOutput × Bool)
  | [] => []
  | [p] => [(p, true)]
  | p :: q :: rest => (p, false) :: flagLast (q :: rest)

/-- All records of a list of pages, in listing order. -/
def allRecords (pages : List ListResourceRecordSetsOutput) : List ResourceRecordSet :=
  (pages.map (fun page => page.ResourceRecordSets)).flatten

/-! ## The program -/

/-- The message printed for a pattern of fewer than 3 bytes (line 31). -/
def tooShortText : String := "-name string should be 3 or more character long.\n"


/-- Lines 81-100 of `main.go`. -/
def getZoneID (client : Route53) (zoneName : String) (log : Log) :
    Except Error String × Log :=
  let input : ListHostedZonesByNameInput := ⟨some zoneName⟩
  let log := log ++ [Event.call (Call.ListHostedZonesByName input)]
  match client.ListHostedZonesByName input with
  | Except.error err => (Except.error err, log)
  | Except.ok zones =>
    match zones.HostedZones.find? (fun z => decide (z.Name = some zoneName)) with
    | none => (Except.error (Error.zoneNotFound zoneName), log)
    | some z =>
      match z.Id with
      | none => (Except.error (Error.zoneNotFound zoneName), log)
      | some id => (Except.ok id, log)

/-- Lines 102-125 of `main.go`. The result is the error of the remote call
(`none` for `nil`). -/
def deleteRecords (client : Route53) (zoneID : Option String)
    (resourceRecordSets : List ResourceRecordSet) (log : Log) : Option Error × Log :=
  let changes := resourceRecordSets.foldl
    (fun (changes : List Change) rrs => changes ++ [⟨some ChangeActionDelete, rrs⟩]) []
  let changeResourceRecordSetsInput : ChangeResourceRecordSetsInput := ⟨zoneID, ⟨changes⟩⟩
  (client.ChangeResourceRecordSets changeResourceRecordSetsInput,
    log ++ [Event.call (Call.ChangeResourceRecordSets changeResourceRecordSetsInput)])

/-- The page callback of `getRecords` (lines 131-138); the captured `result`
slice is the state. -/
def onPage (isMatch : ResourceRecordSet → Bool) (result : List ResourceRecordSet)
    (page : ListResourceRecordSetsOutput) (isLastPage : Bool) :
    List ResourceRecordSet × Bool :=
  (page.ResourceRecordSets.foldl
      (fun result rrs => if isMatch rrs then result ++ [rrs] else result) result,
    !isLastPage)

/-- Lines 127-146 of `main.go`. -/
def getRecords (client : Route53) (zoneID : Option String)
    (isMatch : ResourceRecordSet → Bool) (log : Log) :
    Except Error (List ResourceRecordSet) × Log :=
  let input : ListResourceRecordSetsInput := ⟨zoneID⟩
  let log := log ++ [Event.call (Call.ListResourceRecordSetsPages input)]
  let script := client.ListResourceRecordSets input
  match runPages (onPage isMatch) script.err script.pages [] with
  | (_, some err) => (Except.error err, log)
  | (result, none) => (Except.ok result, log)

/-- The match predicate built in `main` (lines 41-44) from the compiled
expression `re`. -/
def isMatch (re : String → Bool) (rrs : ResourceRecordSet) : Bool :=
  match rrs.Type_, rrs.Name with
  | some t, some n => decide (t = RRTypeA) && re n
  | _, _ => false

/-- The line printed for one match (line 58). -/
def displayLine (name : String) : String :=
  "  -- " ++ Replace name "\\052" "*" 1 ++ "\n"

/-- The listing loop of `main` (lines 57-59); `none` when a name pointer is
`nil`, which makes the dereference panic. -/
def printMatches : List ResourceRecordSet → Log → Option Log
  | [], log => some log
  | rrs :: rest, log =>
    match rrs.Name with
    | none => none
    | some name => printMatches rest (log ++ [Event.stdout (displayLine name)])

/-- The prompt of the confirmation loop. -/
def promptText : String := "Are you sure you want delete those [yes/no]?"

/-- The confirmation loop of `main` (lines 61-71): the final value of `delete`,
or `none` when standard input ends before a "yes" or "no" was read, in which
case the loop never exits (the prompt it keeps printing is logged once). -/
def confirm : List String → Log → Option Bool × Log
  | [], log => (none, log ++ [Event.stdout promptText])
  | token :: rest, log =>
    let log := log ++ [Event.stdout promptText]
    let choice := ToLower token
    if choice = "yes" ∨ choice = "no" then (some (decide (choice = "yes")), log)
    else confirm rest log

/-- Lines 15-79 of `main.go`: `regex` and `zoneName` are the values of the two
flags, `stdin` the tokens read at the prompt. -/
def main (compile : String → Option (String → Bool)) (client : Route53)
    (regex zoneName : String) (stdin : List String) : Run :=
  if regex = "" ∨ zoneName = "" then ⟨[Event.printDefaults], Outcome.usageExit⟩
  else if regex.utf8ByteSize < 3 then
    ⟨[Event.stdout tooShortText], Outcome.tooShort⟩
  else
    match getZoneID client zoneName [] with
    | (Except.error err, log) => ⟨log, Outcome.fatal err⟩
    | (Except.ok zoneID, log) =>
      let log := log ++ [Event.mustCompile regex]
      match compile regex with
      | none => ⟨log, Outcome.panicked⟩
      | some re =>
        match getRecords client (some zoneID) (isMatch re) log with
        | (Except.error err, log) => ⟨log, Outcome.fatal err⟩
        | (Except.ok resourceRecordSets, log) =>
          if resourceRecordSets.length = 0 then
            ⟨log ++ [Event.stdout "There are no matching routes.\n"], Outcome.noMatches⟩
          else
            match printMatches resourceRecordSets
                (log ++ [Event.stdout "Matching routes are:\n"]) with
            | none => ⟨log ++ [Event.stdout "Matching routes are:\n"], Outcome.panicked⟩
            | some log =>
              match confirm stdin log with
              | (none, log) => ⟨log, Outcome.blocked⟩
              | (some false, log) => ⟨log, Outcome.declined⟩
              | (some true, log) =>
                match deleteRecords client (some zoneID) resourceRecordSets
                    (log ++ [Event.stdout "deleting...\n"]) with
                | (some err, log) => ⟨log, Outcome.fatal err⟩
                | (none, log) => ⟨log, Outcome.deleted⟩

/-! ## Observations on a run -/

/-- The remote calls of a log, in order. -/
def remoteCalls : Log → List Call
  | [] => []
  | Event.call c :: rest => c :: remoteCalls rest
  | _ :: rest => remoteCalls rest

/-- The change batches submitted in a log, in order. -/
def changeCalls : Log → List ChangeResourceRecordSetsInput
  | [] => []
  | Event.call (Call.ChangeResourceRecordSets input) :: rest => input :: changeCalls rest
  | _ :: rest => changeCalls rest

/-- The patterns handed to `regexp.MustCompile` in a log, in order. -/
def compiledPatterns : Log → List String
  | [] => []
  | Event.mustCompile pattern :: rest => pattern :: compiledPatterns rest
  | _ :: rest => compiledPatterns rest

/-- The change batches of a log that pass the SDK's validation, that is, those
for which a request is sent to the service. -/
def changeRequestsSent (client : Route53) (log : Log) : List ChangeResourceRecordSetsInput :=
  (changeCalls log).filter (Validate client.validPayload)

/-- A token is a valid answer when its lower case is "yes" or "no". -/
def isAnswer (token : String) : Prop :=
  ToLower token = "yes" ∨ ToLower token = "no"

instance (token : String) : Decidable (isAnswer token) := by
  unfold isAnswer
  infer_instance

/-- A response of one word: at least one rune and no white space. -/
def isWord (response : String) : Prop :=
  response.data ≠ [] ∧ ∀ r ∈ response.data, isSpace r = false

/-- The text typed for a list of responses, each ended by a newline. -/
def linesOf (responses : List String) : List Char :=
  responses.flatMap (fun response => response.data ++ ['\n'])

/-- The names of a list of record sets (`nil` names are skipped). -/
def recordNames (rrss : List ResourceRecordSet) : List String :=
  rrss.filterMap (fun rrs => rrs.Name)

/-- The change batch that `deleteRecords` builds for a zone and its candidates. -/
def deleteBatch (zoneID : Option String) (rrss : List ResourceRecordSet) :
    ChangeResourceRecordSetsInput :=
  ⟨zoneID, ⟨rrss.map (fun rrs => (⟨some ChangeActionDelete, rrs⟩ : Change))⟩⟩

/-- The log of a run at the moment the confirmation loop is entered. -/
def logAtPrompt (regex zoneName zoneID : String) (rrss : List ResourceRecordSet) : Log :=
  [Event.call (Call.ListHostedZonesByName ⟨some zoneName⟩), Event.mustCompile regex,
    Event.call (Call.ListResourceRecordSetsPages ⟨some zoneID⟩),
    Event.stdout "Matching routes are:\n"]
  ++ (recordNames rrss).map (fun name => Event.stdout (displayLine name))

/-! ## Sample data: the zone `example.com.` of the scenarios -/

/-- A stand-in for the regular expression engine that is used to run the model
on concrete inputs: a pattern is searched in the name as literal text, and a
pattern containing `(` does not compile. -/
def literalEngine (pattern : String) : Option (String → Bool) :=
  if '(' ∈ pattern.data then none
  else some (fun name => decide (pattern.data <:+: name.data))

/-- The record `foo.example.com.` of type A. -/
def fooRecord : ResourceRecordSet := ⟨some "foo.example.com.", some "A", 1⟩

/-- The record `bar.example.com.` of type A. -/
def barRecord : ResourceRecordSet := ⟨some "bar.example.com.", some "A", 2⟩

/-- The record `baz.example.com.` of type TXT. -/
def bazRecord : ResourceRecordSet := ⟨some "baz.example.com.", some "TXT", 3⟩

/-- A client for the zone `example.com.` with the three records of the scenario,
delivered as two pages; every change batch is accepted. -/
def exampleClient : Route53 where
  ListHostedZonesByName := fun _ =>
    Except.ok ⟨[⟨some "/hostedzone/Z1", some "example.com."⟩,
      ⟨some "/hostedzone/Z2", some "example.com.au."⟩]⟩
  ListResourceRecordSets := fun _ =>
    ⟨flagLast [⟨[fooRecord, barRecord]⟩, ⟨[bazRecord]⟩], none⟩
  validPayload := fun _ => true
  sendChangeBatch := fun _ => none

/-- A client for the zone `example.com.` holding one address record whose name
has two escaped asterisks. -/
def wildcardClient : Route53 where
  ListHostedZonesByName := fun _ => Except.ok ⟨[⟨some "/hostedzone/Z1", some "example.com."⟩]⟩
  ListResourceRecordSets := fun _ =>
    ⟨flagLast [⟨[⟨some "\\052.\\052.example.com.", some "A", 4⟩]⟩], none⟩
  validPayload := fun _ => true
  sendChangeBatch := fun _ => none

/-! ## Auxiliary lemmas -/

theorem foldl_append_change (rrss : List ResourceRecordSet) (init : List Change) :
    rrss.foldl (fun (changes : List Change) rrs => changes ++ [⟨some ChangeActionDelete, rrs⟩])
      init = init ++ rrss.map (fun rrs => (⟨some ChangeActionDelete, rrs⟩ : Change)) := by
  induction rrss generalizing init with
  | nil => simp
  | cons r rest ih => simp [List.foldl_cons, ih]

theorem foldl_append_match (isMatch : ResourceRecordSet → Bool)
    (rrss init : List ResourceRecordSet) :
    rrss.foldl (fun result rrs => if isMatch rrs then result ++ [rrs] else result) init
      = init ++ rrss.filter isMatch := by
  induction rrss generalizing init with
  | nil => simp
  | cons r rest ih =>
    by_cases h : isMatch r = true
    · simp [List.foldl_cons, ih, h]
    · simp [List.foldl_cons, ih, h]

theorem runPages_flagLast (isMatch : ResourceRecordSet → Bool) (err : Option Error)
    (pages : List ListResourceRecordSetsOutput) (init : List ResourceRecordSet)
    (h : err = none ∨ pages ≠ []) :
    runPages (onPage isMatch) err (flagLast pages) init
      = (init ++ (allRecords pages).filter isMatch, none) := by
  induction pages generalizing init with
  | nil =>
    rcases h with h | h
    · simp [flagLast, runPages, allRecords, h]
    · exact absurd rfl h
  | cons p rest ih =>
    cases rest with
    | nil => simp [flagLast, runPages, onPage, allRecords, foldl_append_match]
    | cons q rest =>
      have := ih (init ++ p.ResourceRecordSets.filter isMatch) (Or.inr (by simp))
      simp [flagLast, runPages, onPage, foldl_append_match, this, allRecords]

theorem changeCalls_append (a b : Log) :
    changeCalls (a ++ b) = changeCalls a ++ changeCalls b := by
  induction a with
  | nil => rfl
  | cons e rest ih =>
    cases e with
    | call c => cases c <;> simp [changeCalls, ih]
    | mustCompile _ => simpa [changeCalls] using ih
    | printDefaults => simpa [changeCalls] using ih
    | stdout _ => simpa [changeCalls] using ih

theorem remoteCalls_append (a b : Log) :
    remoteCalls (a ++ b) = remoteCalls a ++ remoteCalls b := by
  induction a with
  | nil => rfl
  | cons e rest ih => cases e <;> simp [remoteCalls, ih]

theorem compiledPatterns_append (a b : Log) :
    compiledPatterns (a ++ b) = compiledPatterns a ++ compiledPatterns b := by
  induction a with
  | nil => rfl
  | cons e rest ih => cases e <;> simp [compiledPatterns, ih]

theorem getZoneID_log (client : Route53) (zoneName : String) (log : Log) :
    (getZoneID client zoneName log).2
      = log ++ [Event.call (Call.ListHostedZonesByName ⟨some zoneName⟩)] := by
  unfold getZoneID
  simp only
  split
  · rfl
  · split
    · rfl
    · split <;> rfl

theorem getRecords_log (client : Route53) (zoneID : Option String)
    (isMatch : ResourceRecordSet → Bool) (log : Log) :
    (getRecords client zoneID isMatch log).2
      = log ++ [Event.call (Call.ListResourceRecordSetsPages ⟨zoneID⟩)] := by
  unfold getRecords
  simp only
  split <;> rfl

theorem runPages_all_match (isMatch : ResourceRecordSet → Bool) (err : Option Error)
    (pages : List (ListResourceRecordSetsOutput × Bool)) (init : List ResourceRecordSet)
    (hinit : ∀ rrs ∈ init, isMatch rrs = true) :
    ∀ rrs ∈ (runPages (onPage isMatch) err pages init).1, isMatch rrs = true := by
  induction pages generalizing init with
  | nil => simpa [runPages] using hinit
  | cons p rest ih =>
    obtain ⟨page, isLastPage⟩ := p
    have hstep : ∀ rrs ∈ init ++ page.ResourceRecordSets.filter isMatch,
        isMatch rrs = true := by
      intro rrs hrrs
      rcases List.mem_append.1 hrrs with h | h
      · exact hinit rrs h
      · exact (List.mem_filter.1 h).2
    cases isLastPage with
    | true => simpa [runPages, onPage, foldl_append_match] using hstep
    | false =>
      simpa [runPages, onPage, foldl_append_match] using ih _ hstep

theorem getRecords_all_match (client : Route53) (zoneID : Option String)
    (isMatch : ResourceRecordSet → Bool) (log : Log) (result : List ResourceRecordSet)
    (h : (getRecords client zoneID isMatch log).1 = Except.ok result) :
    ∀ rrs ∈ result, isMatch rrs = true := by
  have hall := runPages_all_match isMatch (client.ListResourceRecordSets ⟨zoneID⟩).err
    (client.ListResourceRecordSets ⟨zoneID⟩).pages [] (by simp)
  unfold getRecords at h
  simp only at h
  split at h
  · simp at h
  · rename_i res heq
    simp only [Except.ok.injEq] at h
    subst h
    rw [heq] at hall
    exact hall

theorem printMatches_log (rrss : List ResourceRecordSet) (log log' : Log)
    (h : printMatches rrss log = some log') :
    ∃ lines : List String, log' = log ++ lines.map Event.stdout := by
  induction rrss generalizing log with
  | nil =>
    simp [printMatches] at h
    exact ⟨[], by simp [h]⟩
  | cons r rest ih =>
    cases hname : r.Name with
    | none => simp [printMatches, hname] at h
    | some name =>
      simp only [printMatches, hname] at h
      obtain ⟨lines, hl⟩ := ih _ h
      exact ⟨displayLine name :: lines, by simp [hl]⟩

theorem confirm_log (stdin : List String) (log : Log) :
    ∃ lines : List String, (confirm stdin log).2 = log ++ lines.map Event.stdout := by
  induction stdin generalizing log with
  | nil => exact ⟨[promptText], by simp [confirm]⟩
  | cons token rest ih =>
    by_cases hans : ToLower token = "yes" ∨ ToLower token = "no"
    · exact ⟨[promptText], by simp [confirm, hans]⟩
    · obtain ⟨lines, hl⟩ := ih (log ++ [Event.stdout promptText])
      exact ⟨promptText :: lines, by simp [confirm, hans, hl]⟩

theorem changeCalls_stdout (lines : List String) :
    changeCalls (lines.map Event.stdout) = [] := by
  induction lines with
  | nil => rfl
  | cons l rest ih => simpa [changeCalls] using ih

theorem remoteCalls_stdout (lines : List String) :
    remoteCalls (lines.map Event.stdout) = [] := by
  induction lines with
  | nil => rfl
  | cons l rest ih => simpa [remoteCalls] using ih

theorem compiledPatterns_stdout (lines : List String) :
    compiledPatterns (lines.map Event.stdout) = [] := by
  induction lines with
  | nil => rfl
  | cons l rest ih => simpa [compiledPatterns] using ih

theorem confirm_fst (stdin : List String) (log : Log) :
    (confirm stdin log).1 = (confirm stdin []).1 := by
  induction stdin generalizing log with
  | nil => rfl
  | cons token rest ih =>
    by_cases hans : ToLower token = "yes" ∨ ToLower token = "no"
    · simp [confirm, hans]
    · simp only [confirm, hans, if_false]
      rw [ih, ih ([] ++ [Event.stdout promptText])]

/-- The change batches of a run: none, unless the zone was resolved, the pattern
compiled, the scan returned a non-empty candidate list and the operator's
decision was `true`; then the one batch built by `deleteRecords`. -/
theorem main_changeCalls (compile : String → Option (String → Bool)) (client : Route53)
    (regex zoneName : String) (stdin : List String) :
    changeCalls (main compile client regex zoneName stdin).events = [] ∨
    ∃ zoneID re rrss log,
      compile regex = some re
        ∧ (getZoneID client zoneName []).1 = Except.ok zoneID
        ∧ (getRecords client (some zoneID) (isMatch re) log).1 = Except.ok rrss
        ∧ rrss ≠ []
        ∧ (confirm stdin []).1 = some true
        ∧ changeCalls (main compile client regex zoneName stdin).events
            = [⟨some zoneID, ⟨rrss.map
                (fun rrs => (⟨some ChangeActionDelete, rrs⟩ : Change))⟩⟩] := by
  unfold main
  split_ifs with h1 h2
  · left; rfl
  · left; rfl
  · split
    · rename_i err log hz
      have hlog := getZoneID_log client zoneName []
      rw [hz] at hlog
      simp only [List.nil_append] at hlog
      subst hlog
      left; rfl
    · rename_i zoneID log hz
      have hlog := getZoneID_log client zoneName []
      rw [hz] at hlog
      simp only [List.nil_append] at hlog
      subst hlog
      simp only
      split
      · left; rfl
      · rename_i re hre
        split
        · rename_i err log2 hr
          have hlog2 := getRecords_log client (some zoneID) (isMatch re)
            ([Event.call (Call.ListHostedZonesByName ⟨some zoneName⟩)]
              ++ [Event.mustCompile regex])
          rw [hr] at hlog2
          simp only at hlog2
          subst hlog2
          left; rfl
        · rename_i rrss log2 hr
          have hlog2 := getRecords_log client (some zoneID) (isMatch re)
            ([Event.call (Call.ListHostedZonesByName ⟨some zoneName⟩)]
              ++ [Event.mustCompile regex])
          rw [hr] at hlog2
          simp only at hlog2
          subst hlog2
          split_ifs with hlen
          · left; rfl
          · split
            · left; rfl
            · rename_i log3 hp
              obtain ⟨lines, hlines⟩ := printMatches_log _ _ _ hp
              split
              · rename_i log4 hc
                obtain ⟨lines2, hl2⟩ := confirm_log stdin log3
                rw [hc] at hl2
                simp only at hl2
                left
                subst hl2 hlines
                simp [changeCalls_append, changeCalls_stdout, changeCalls]
              · rename_i log4 hc
                obtain ⟨lines2, hl2⟩ := confirm_log stdin log3
                rw [hc] at hl2
                simp only at hl2
                left
                subst hl2 hlines
                simp [changeCalls_append, changeCalls_stdout, changeCalls]
              · rename_i log4 hc
                obtain ⟨lines2, hl2⟩ := confirm_log stdin log3
                have hfst := confirm_fst stdin log3
                rw [hc] at hl2 hfst
                simp only at hl2 hfst
                right
                refine ⟨zoneID, re, rrss, _, hre, by rw [hz], by rw [hr], ?_, hfst.symm, ?_⟩
                · intro hnil
                  exact hlen (by simp [hnil])
                · subst hl2 hlines
                  split <;>
                    (rename_i hd
                     have hd2 := congrArg Prod.snd hd
                     simp only [deleteRecords] at hd2
                     subst hd2
                     simp [changeCalls_append, changeCalls_stdout, changeCalls,
                       foldl_append_change])

theorem getRecords_fst (client : Route53) (zoneID : Option String)
    (isMatch : ResourceRecordSet → Bool) (log : Log) :
    (getRecords client zoneID isMatch log).1 = (getRecords client zoneID isMatch []).1 := by
  unfold getRecords
  simp only
  split <;> rfl

theorem getZoneID_fst (client : Route53) (zoneName : String) (log : Log) :
    (getZoneID client zoneName log).1 = (getZoneID client zoneName []).1 := by
  unfold getZoneID
  simp only
  split
  · rfl
  · split
    · rfl
    · split <;> rfl

theorem isMatch_iff (re : String → Bool) (rrs : ResourceRecordSet) :
    isMatch re rrs = true ↔
      rrs.Type_ = some "A" ∧ ∃ name, rrs.Name = some name ∧ re name = true := by
  unfold isMatch
  cases hT : rrs.Type_ with
  | none => simp
  | some t =>
    cases hN : rrs.Name with
    | none => simp
    | some n => simp [RRTypeA]

theorem printMatches_named (rrss : List ResourceRecordSet) (log : Log)
    (h : ∀ rrs ∈ rrss, ∃ name, rrs.Name = some name) :
    printMatches rrss log
      = some (log ++ (recordNames rrss).map (fun name => Event.stdout (displayLine name))) := by
  induction rrss generalizing log with
  | nil => simp [printMatches, recordNames]
  | cons r rest ih =>
    obtain ⟨name, hname⟩ := h r (by simp)
    have hrest : ∀ rrs ∈ rest, ∃ name, rrs.Name = some name :=
      fun rrs hrrs => h rrs (by simp [hrrs])
    have := ih (log ++ [Event.stdout (displayLine name)]) hrest
    simp only [recordNames] at this
    simp [printMatches, hname, this, recordNames, List.filterMap_cons]

/-- The run from the confirmation loop on, once the zone is resolved, the pattern
compiled and the scan has returned a non-empty candidate list. -/
theorem main_after_scan (compile : String → Option (String → Bool)) (client : Route53)
    (regex zoneName : String) (stdin : List String) (zoneID : String)
    (re : String → Bool) (rrss : List ResourceRecordSet)
    (h1 : regex ≠ "") (h2 : zoneName ≠ "") (h3 : 3 ≤ regex.utf8ByteSize)
    (hz : (getZoneID client zoneName []).1 = Except.ok zoneID)
    (hre : compile regex = some re)
    (hr : (getRecords client (some zoneID) (isMatch re) []).1 = Except.ok rrss)
    (hne : rrss ≠ []) :
    main compile client regex zoneName stdin =
      match confirm stdin (logAtPrompt regex zoneName zoneID rrss) with
      | (none, log) => ⟨log, Outcome.blocked⟩
      | (some false, log) => ⟨log, Outcome.declined⟩
      | (some true, log) =>
        ⟨log ++ [Event.stdout "deleting...\n",
            Event.call (Call.ChangeResourceRecordSets (deleteBatch (some zoneID) rrss))],
          match client.ChangeResourceRecordSets (deleteBatch (some zoneID) rrss) with
          | some err => Outcome.fatal err
          | none => Outcome.deleted⟩ := by
  have hzone : getZoneID client zoneName []
      = (Except.ok zoneID, [Event.call (Call.ListHostedZonesByName ⟨some zoneName⟩)]) :=
    Prod.ext hz (by simpa using getZoneID_log client zoneName [])
  have hrec : getRecords client (some zoneID) (isMatch re)
      ([Event.call (Call.ListHostedZonesByName ⟨some zoneName⟩)] ++ [Event.mustCompile regex])
      = (Except.ok rrss, [Event.call (Call.ListHostedZonesByName ⟨some zoneName⟩),
          Event.mustCompile regex, Event.call (Call.ListResourceRecordSetsPages ⟨some zoneID⟩)]) :=
    Prod.ext (by rw [getRecords_fst]; exact hr) (by simp [getRecords_log])
  have hnames : ∀ rrs ∈ rrss, ∃ name, rrs.Name = some name := by
    intro rrs hrrs
    have := getRecords_all_match client (some zoneID) (isMatch re) [] rrss hr rrs hrrs
    obtain ⟨_, name, hname, _⟩ := (isMatch_iff re rrs).1 this
    exact ⟨name, hname⟩
  have hlen : ¬ rrss.length = 0 := by
    intro h
    exact hne (List.length_eq_zero.1 h)
  have hshort : ¬ regex.utf8ByteSize < 3 := by omega
  unfold main
  simp only [h1, h2, or_self, if_false, hshort, hzone, hre, hrec, hlen,
    printMatches_named _ _ hnames]
  have hlogeq : [Event.call (Call.ListHostedZonesByName ⟨some zoneName⟩),
      Event.mustCompile regex, Event.call (Call.ListResourceRecordSetsPages ⟨some zoneID⟩)]
      ++ [Event.stdout "Matching routes are:\n"]
      ++ (recordNames rrss).map (fun name => Event.stdout (displayLine name))
      = logAtPrompt regex zoneName zoneID rrss := by
    simp [logAtPrompt]
  rw [hlogeq]
  rcases hc : confirm stdin (logAtPrompt regex zoneName zoneID rrss) with ⟨decision, log⟩
  cases decision with
  | none => rfl
  | some b =>
    cases b with
    | false => rfl
    | true =>
      simp only [deleteRecords, foldl_append_change, List.nil_append]
      cases hd : client.ChangeResourceRecordSets
          ⟨some zoneID, ⟨rrss.map (fun rrs => (⟨some ChangeActionDelete, rrs⟩ : Change))⟩⟩ with
      | none => simp [deleteBatch, hd]
      | some err => simp [deleteBatch, hd]

theorem mem_changeCalls (input : ChangeResourceRecordSetsInput) (log : Log) :
    input ∈ changeCalls log ↔ Event.call (Call.ChangeResourceRecordSets input) ∈ log := by
  induction log with
  | nil => simp [changeCalls]
  | cons e rest ih =>
    cases e with
    | call c => cases c <;> simp [changeCalls, ih]
    | mustCompile _ => simp [changeCalls, ih]
    | printDefaults => simp [changeCalls, ih]
    | stdout _ => simp [changeCalls, ih]

theorem mem_remoteCalls (c : Call) (log : Log) :
    c ∈ remoteCalls log ↔ Event.call c ∈ log := by
  induction log with
  | nil => simp [remoteCalls]
  | cons e rest ih => cases e <;> simp [remoteCalls, ih]

theorem confirm_skip (invalids tail : List String) (log : Log)
    (hinv : ∀ token ∈ invalids, ¬ isAnswer token) :
    confirm (invalids ++ tail) log
      = confirm tail (log ++ List.replicate invalids.length (Event.stdout promptText)) := by
  induction invalids generalizing log with
  | nil => simp
  | cons token rest ih =>
    have htok : ¬ (ToLower token = "yes" ∨ ToLower token = "no") := hinv token (by simp)
    have hrest : ∀ t ∈ rest, ¬ isAnswer t := fun t ht => hinv t (by simp [ht])
    have hstep : confirm (token :: (rest ++ tail)) log
        = confirm (rest ++ tail) (log ++ [Event.stdout promptText]) := by
      simp only [confirm, htok, if_false]
    rw [List.cons_append, hstep, ih _ hrest]
    simp [List.replicate_succ]

theorem confirm_true_split (responses : List String) (log : Log)
    (h : (confirm responses log).1 = some true) :
    ∃ before token after, responses = before ++ token :: after
      ∧ (∀ t ∈ before, ¬ isAnswer t) ∧ ToLower token = "yes" := by
  induction responses generalizing log with
  | nil => simp [confirm] at h
  | cons token rest ih =>
    by_cases hans : ToLower token = "yes" ∨ ToLower token = "no"
    · simp only [confirm, hans, if_true, Option.some.injEq, decide_eq_true_eq] at h
      exact ⟨[], token, rest, rfl, by simp, h⟩
    · simp only [confirm, hans, if_false] at h
      obtain ⟨before, t, after, h1, h2, h3⟩ := ih _ h
      refine ⟨token :: before, t, after, by simp [h1], ?_, h3⟩
      intro x hx
      rcases List.mem_cons.1 hx with rfl | hx
      · exact hans
      · exact h2 x hx

theorem utf8ByteSize_empty (s : String) (h : s = "") : s.utf8ByteSize = 0 := by
  subst h
  rfl

theorem length_le_go (cs : List Char) : cs.length ≤ String.utf8ByteSize.go cs := by
  induction cs with
  | nil => simp [String.utf8ByteSize.go]
  | cons c rest ih =>
    have := Char.utf8Size_pos c
    simp only [String.utf8ByteSize.go, List.length_cons]
    omega

theorem length_le_utf8ByteSize (s : String) : s.length ≤ s.utf8ByteSize := by
  cases s with
  | mk cs => exact length_le_go cs

theorem getRecords_flagLast (client : Route53) (zoneID : Option String)
    (isMatch : ResourceRecordSet → Bool) (log : Log)
    (pages : List ListResourceRecordSetsOutput) (err : Option Error)
    (hscript : client.ListResourceRecordSets ⟨zoneID⟩ = ⟨flagLast pages, err⟩)
    (hlast : err = none ∨ pages ≠ []) :
    (getRecords client zoneID isMatch log).1
      = Except.ok ((allRecords pages).filter isMatch) := by
  simp [getRecords, hscript, runPages_flagLast isMatch err pages [] hlast]

theorem main_short (compile : String → Option (String → Bool)) (client : Route53)
    (regex zoneName : String) (stdin : List String) (hshort : regex.utf8ByteSize < 3) :
    (regex ≠ "" → zoneName ≠ "" →
        main compile client regex zoneName stdin
          = ⟨[Event.stdout tooShortText], Outcome.tooShort⟩)
      ∧ (regex = "" ∨ zoneName = "" →
        main compile client regex zoneName stdin
          = ⟨[Event.printDefaults], Outcome.usageExit⟩) := by
  constructor
  · intro h1 h2
    simp [main, h1, h2, hshort]
  · intro h
    simp [main, h]

theorem main_invalid_pattern (compile : String → Option (String → Bool)) (client : Route53)
    (regex zoneName : String) (stdin : List String)
    (h3 : 3 ≤ regex.utf8ByteSize) (h2 : zoneName ≠ "") (hbad : compile regex = none) :
    main compile client regex zoneName stdin =
      match (getZoneID client zoneName []).1 with
      | Except.error err =>
        ⟨[Event.call (Call.ListHostedZonesByName ⟨some zoneName⟩)], Outcome.fatal err⟩
      | Except.ok _ =>
        ⟨[Event.call (Call.ListHostedZonesByName ⟨some zoneName⟩), Event.mustCompile regex],
          Outcome.panicked⟩ := by
  have h1 : regex ≠ "" := by
    intro h
    have := utf8ByteSize_empty regex h
    omega
  have hshort : ¬ regex.utf8ByteSize < 3 := by omega
  have hlog := getZoneID_log client zoneName []
  rcases hz : getZoneID client zoneName [] with ⟨res, log⟩
  rw [hz] at hlog
  simp only [List.nil_append] at hlog
  subst hlog
  unfold main
  simp only [h1, h2, or_self, if_false, hshort, hz]
  cases res with
  | error err => rfl
  | ok zoneID => simp [hbad]

theorem main_no_matches (compile : String → Option (String → Bool)) (client : Route53)
    (regex zoneName : String) (stdin : List String) (zoneID : String) (re : String → Bool)
    (h3 : 3 ≤ regex.utf8ByteSize) (h2 : zoneName ≠ "")
    (hz : (getZoneID client zoneName []).1 = Except.ok zoneID)
    (hre : compile regex = some re)
    (hr : (getRecords client (some zoneID) (isMatch re) []).1 = Except.ok []) :
    main compile client regex zoneName stdin =
      ⟨[Event.call (Call.ListHostedZonesByName ⟨some zoneName⟩), Event.mustCompile regex,
          Event.call (Call.ListResourceRecordSetsPages ⟨some zoneID⟩),
          Event.stdout "There are no matching routes.\n"], Outcome.noMatches⟩ := by
  have h1 : regex ≠ "" := by
    intro h
    have := utf8ByteSize_empty regex h
    omega
  have hshort : ¬ regex.utf8ByteSize < 3 := by omega
  have hzone : getZoneID client zoneName []
      = (Except.ok zoneID, [Event.call (Call.ListHostedZonesByName ⟨some zoneName⟩)]) :=
    Prod.ext hz (by simpa using getZoneID_log client zoneName [])
  have hrec : getRecords client (some zoneID) (isMatch re)
      ([Event.call (Call.ListHostedZonesByName ⟨some zoneName⟩)] ++ [Event.mustCompile regex])
      = (Except.ok [], [Event.call (Call.ListHostedZonesByName ⟨some zoneName⟩),
          Event.mustCompile regex, Event.call (Call.ListResourceRecordSetsPages ⟨some zoneID⟩)]) :=
    Prod.ext (by rw [getRecords_fst]; exact hr) (by simp [getRecords_log])
  unfold main
  simp only [h1, h2, or_self, if_false, hshort, hzone, hre, hrec]
  simp

theorem main_short_no_remote_call
    (compile : String → Option (String → Bool)) (client : Route53)
    (regex zoneName : String) (stdin : List String) (hshort : regex.utf8ByteSize < 3) :
    remoteCalls (main compile client regex zoneName stdin).events = [] := by
  have h := main_short compile client regex zoneName stdin hshort
  by_cases hu : regex = "" ∨ zoneName = ""
  · rw [h.2 hu]; rfl
  · rw [h.1 (fun e => hu (Or.inl e)) (fun e => hu (Or.inr e))]; rfl

theorem skipSpace_word (r : Char) (rest : List Char) (hr : isSpace r = false) :
    skipSpace (r :: rest) = Skipped.word (r :: rest) := by
  have hnl : r ≠ '\n' := by
    intro h
    rw [h] at hr
    exact absurd hr (by decide)
  simp [skipSpace, hnl, hr]

theorem takeWhile_word (word rest : List Char) (hword : ∀ r ∈ word, isSpace r = false) :
    (word ++ '\n' :: rest).takeWhile (fun r => !isSpace r) = word
      ∧ (word ++ '\n' :: rest).dropWhile (fun r => !isSpace r) = '\n' :: rest := by
  induction word with
  | nil =>
    have hnl : isSpace '\n' = true := by decide
    simp [List.takeWhile, List.dropWhile, hnl]
  | cons r word ih =>
    have hr : isSpace r = false := hword r (by simp)
    have := ih (fun x hx => hword x (by simp [hx]))
    simp [List.takeWhile, List.dropWhile, hr, this]

theorem Scanln_word (response : String) (rest : List Char) (hword : isWord response) :
    Scanln (response.data ++ '\n' :: rest) = (response, rest) := by
  obtain ⟨hne, hall⟩ := hword
  cases hdata : response.data with
  | nil => exact absurd hdata hne
  | cons r word =>
    have hr : isSpace r = false := hall r (by simp [hdata])
    have htake := takeWhile_word (r :: word) rest (by rw [← hdata]; exact hall)
    have hmk : String.mk (r :: word) = response := by
      rw [← hdata]
    simp only [Scanln, List.cons_append, skipSpace_word r _ hr]
    rw [← List.cons_append, htake.1, htake.2, hmk]
    simp [skipToNewline]

theorem storedChoices_lines (responses : List String) (k : Nat) (rest : List Char)
    (hwords : ∀ response ∈ responses, isWord response) :
    storedChoices (responses.length + k) (linesOf responses ++ rest)
      = responses ++ storedChoices k rest := by
  induction responses with
  | nil => simp [linesOf]
  | cons response others ih =>
    have hword : isWord response := hwords response (by simp)
    have hothers : ∀ w ∈ others, isWord w := fun w hw => hwords w (by simp [hw])
    have htext : linesOf (response :: others) ++ rest
        = response.data ++ '\n' :: (linesOf others ++ rest) := by
      simp [linesOf]
    have hscan := Scanln_word response (linesOf others ++ rest) hword
    cases hdata : response.data with
    | nil => exact absurd hdata hword.1
    | cons r word =>
      rw [htext]
      rw [hdata] at hscan
      have hfuel : (response :: others).length + k = (others.length + k) + 1 := by
        simp only [List.length_cons]
        omega
      rw [hfuel, hdata, List.cons_append]
      simp only [storedChoices]
      rw [List.cons_append] at hscan
      rw [hscan]
      simp only [ih hothers, List.cons_append]

theorem length_le_linesOf (responses : List String) :
    responses.length ≤ (linesOf responses).length := by
  induction responses with
  | nil => simp [linesOf]
  | cons response others ih =>
    have : linesOf (response :: others) = response.data ++ '\n' :: linesOf others := by
      simp [linesOf]
    rw [this]
    simp only [List.length_cons, List.length_append]
    omega

theorem choicesOf_lines (responses : List String) (rest : List Char)
    (hwords : ∀ response ∈ responses, isWord response) :
    ∃ later, choicesOf (String.mk (linesOf responses ++ rest)) = responses ++ later := by
  have hlen := length_le_linesOf responses
  obtain ⟨k, hk⟩ : ∃ k, (linesOf responses ++ rest).length = responses.length + k :=
    ⟨(linesOf responses ++ rest).length - responses.length, by
      simp only [List.length_append]
      omega⟩
  refine ⟨storedChoices k rest, ?_⟩
  unfold choicesOf
  simp only
  rw [hk]
  exact storedChoices_lines responses k rest hwords

theorem skipToNewline_length (input : List Char) :
    (skipToNewline input).length ≤ input.length := by
  induction input with
  | nil => simp [skipToNewline]
  | cons r rest ih =>
    simp only [skipToNewline]
    split_ifs <;> simp only [List.length_cons] <;> omega

theorem dropWhile_length (f : Char → Bool) (input : List Char) :
    (input.dropWhile f).length ≤ input.length := by
  induction input with
  | nil => simp
  | cons r rest ih =>
    simp only [List.dropWhile]
    split <;> simp only [List.length_cons] <;> omega

theorem Scanln_word_length (input : List Char) :
    (skipToNewline (input.dropWhile (fun r => !isSpace r))).length ≤ input.length :=
  le_trans (skipToNewline_length _) (dropWhile_length _ _)

theorem skipSpace_length (input : List Char) :
    match skipSpace input with
    | Skipped.eof => True
    | Skipped.newline rest => rest.length < input.length
    | Skipped.word rest => rest.length ≤ input.length
        ∧ ∃ r tail, rest = r :: tail ∧ isSpace r = false := by
  induction input with
  | nil => simp [skipSpace]
  | cons r rest ih =>
    by_cases hnl : r = '\n'
    · simp [skipSpace, hnl]
    · cases hsp : isSpace r with
      | true =>
        simp only [skipSpace, hnl, hsp, if_true, if_false]
        cases hskip : skipSpace rest with
        | eof => trivial
        | newline left =>
          rw [hskip] at ih
          simp only at ih
          simp only [List.length_cons]
          omega
        | word left =>
          rw [hskip] at ih
          simp only at ih
          exact ⟨by simp only [List.length_cons]; omega, ih.2⟩
      | false =>
        simp only [skipSpace, hnl, hsp, if_false]
        exact ⟨le_refl _, r, rest, rfl, hsp⟩

/-- Every `Scanln` call on a non-empty input consumes at least one rune. -/
theorem Scanln_consumes (r : Char) (rest : List Char) :
    (Scanln (r :: rest)).2.length ≤ rest.length := by
  have h := skipSpace_length (r :: rest)
  unfold Scanln
  cases hskip : skipSpace (r :: rest) with
  | eof => simp
  | newline left =>
    rw [hskip] at h
    simp only at h
    simp only [List.length_cons] at h
    simp only
    omega
  | word left =>
    rw [hskip] at h
    simp only at h
    obtain ⟨hlen, c, tail, hleft, hc⟩ := h
    subst hleft
    simp only [List.length_cons] at hlen
    have hdrop : (c :: tail).dropWhile (fun r => !isSpace r)
        = tail.dropWhile (fun r => !isSpace r) := by
      simp [List.dropWhile, hc]
    simp only [hdrop]
    have := Scanln_word_length tail
    omega

/-- Fuel equal to the length of the input is enough: more fuel gives the same
list of stored values. -/
theorem storedChoices_fuel (fuel : Nat) (input : List Char) (h : input.length ≤ fuel) :
    storedChoices fuel input = storedChoices input.length input := by
  induction fuel using Nat.strong_induction_on generalizing input with
  | _ fuel ih =>
    cases input with
    | nil => cases fuel <;> rfl
    | cons r rest =>
      cases fuel with
      | zero => simp at h
      | succ fuel =>
        simp only [List.length_cons] at h
        have hcons := Scanln_consumes r rest
        simp only [storedChoices, List.length_cons]
        rw [ih fuel (by omega) _ (by omega), ih rest.length (by omega) _ hcons]

/-! ## Record scanner -/

/-- C1: when the remote listing delivers the pages `pages` with only the final
one flagged as last, `getRecords` succeeds and returns exactly the matching
records of the concatenated pages, in listing order: a record is returned iff it
is listed and matches, the result is a subsequence of the listing, and no record
occurs more often in the result than in the listing. -/
theorem getRecords_returns_filtered_listing (client : Route53) (zoneID : Option String)
    (isMatch : ResourceRecordSet → Bool) (log : Log)
    (pages : List ListResourceRecordSetsOutput) (err : Option Error)
    (hscript : client.ListResourceRecordSets ⟨zoneID⟩ = ⟨flagLast pages, err⟩)
    (hlast : err = none ∨ pages ≠ []) :
    (getRecords client zoneID isMatch log).1
        = Except.ok ((allRecords pages).filter isMatch)
      ∧ (∀ rrs, rrs ∈ (allRecords pages).filter isMatch
            ↔ rrs ∈ allRecords pages ∧ isMatch rrs = true)
      ∧ List.Sublist ((allRecords pages).filter isMatch) (allRecords pages)
      ∧ (∀ rrs, ((allRecords pages).filter isMatch).count rrs
            ≤ (allRecords pages).count rrs) := by
  refine ⟨?_, ?_, List.filter_sublist _, ?_⟩
  · exact getRecords_flagLast client zoneID isMatch log pages err hscript hlast
  · intro rrs
    simp [List.mem_filter]
  · intro rrs
    exact List.Sublist.count_le (List.filter_sublist _) rrs

/-- Witness for C1: the sample listing of two pages, scanned for records of
type `A`. -/
theorem getRecords_returns_filtered_listing_witness :
    (getRecords exampleClient (some "/hostedzone/Z1")
        (fun rrs => decide (rrs.Type_ = some "A")) []).1
      = Except.ok [fooRecord, barRecord] :=
  (getRecords_returns_filtered_listing exampleClient (some "/hostedzone/Z1")
    (fun rrs => decide (rrs.Type_ = some "A")) []
    [⟨[fooRecord, barRecord]⟩, ⟨[bazRecord]⟩] none rfl (Or.inl rfl)).1

/-! ## Zone resolver -/

theorem find_name_split (zoneName : String) (zones : List HostedZone) (z : HostedZone)
    (h : zones.find? (fun z => decide (z.Name = some zoneName)) = some z) :
    ∃ before after, zones = before ++ z :: after
      ∧ (∀ y ∈ before, y.Name ≠ some zoneName) ∧ z.Name = some zoneName := by
  induction zones with
  | nil => simp at h
  | cons y rest ih =>
    by_cases hy : y.Name = some zoneName
    · simp [List.find?_cons, hy] at h
      subst h
      exact ⟨[], rest, rfl, by simp, hy⟩
    · simp [List.find?_cons, hy] at h
      obtain ⟨before, after, h1, h2, h3⟩ := ih h
      refine ⟨y :: before, after, by simp [h1], ?_, h3⟩
      intro w hw
      rcases List.mem_cons.1 hw with rfl | hw
      · exact hy
      · exact h2 w hw

theorem find_name_none (zoneName : String) (zones : List HostedZone)
    (h : ∀ z ∈ zones, z.Name ≠ some zoneName) :
    zones.find? (fun z => decide (z.Name = some zoneName)) = none := by
  simpa [List.find?_eq_none] using h

theorem find_name_found (zoneName : String) (before after : List HostedZone)
    (z : HostedZone) (hbefore : ∀ y ∈ before, y.Name ≠ some zoneName)
    (hz : z.Name = some zoneName) :
    (before ++ z :: after).find? (fun z => decide (z.Name = some zoneName)) = some z := by
  induction before with
  | nil => simp [List.find?_cons, hz]
  | cons y rest ih =>
    have hy : y.Name ≠ some zoneName := hbefore y (by simp)
    have hrest : ∀ w ∈ rest, w.Name ≠ some zoneName := fun w hw => hbefore w (by simp [hw])
    simp only [List.cons_append, List.find?_cons, hy, decide_False]
    exact ih hrest

theorem append_ne_self (s suffix : String) (h : suffix ≠ "") : s ++ suffix ≠ s := by
  intro heq
  apply h
  have h1 : (s ++ suffix).data = s.data := by rw [heq]
  rw [String.data_append] at h1
  have h2 : suffix.data = [] := by simpa using h1
  exact String.ext h2

/-- C3: for the zone listing `zones` returned by the remote call, `getZoneID`
succeeds with `id` only if the first listed entry whose name equals the query
exactly carries that identifier (every entry before it has a different name or
none); when no listed entry has exactly the query as its name, and so in
particular when every listed name is the query followed by a non-empty suffix,
it fails with the not-found error. Conversely, when the first listed entry
whose name equals the query exactly carries the identifier `id`, `getZoneID`
returns `id`, whatever precedes and follows that entry; when that entry has no
identifier the result is the not-found error. -/
theorem getZoneID_exact_match (client : Route53) (zoneName : String) (log : Log)
    (zones : ListHostedZonesByNameOutput)
    (hlist : client.ListHostedZonesByName ⟨some zoneName⟩ = Except.ok zones) :
    (∀ id, (getZoneID client zoneName log).1 = Except.ok id →
        ∃ before z after, zones.HostedZones = before ++ z :: after
          ∧ (∀ y ∈ before, y.Name ≠ some zoneName)
          ∧ z.Name = some zoneName ∧ z.Id = some id)
      ∧ ((∀ z ∈ zones.HostedZones, z.Name ≠ some zoneName) →
          (getZoneID client zoneName log).1 = Except.error (Error.zoneNotFound zoneName))
      ∧ ((∀ z ∈ zones.HostedZones, ∀ name, z.Name = some name →
            ∃ suffix, suffix ≠ "" ∧ name = zoneName ++ suffix) →
          (getZoneID client zoneName log).1 = Except.error (Error.zoneNotFound zoneName))
      ∧ (∀ before z after id, zones.HostedZones = before ++ z :: after →
          (∀ y ∈ before, y.Name ≠ some zoneName) → z.Name = some zoneName →
          z.Id = some id →
          (getZoneID client zoneName log).1 = Except.ok id)
      ∧ (∀ before z after, zones.HostedZones = before ++ z :: after →
          (∀ y ∈ before, y.Name ≠ some zoneName) → z.Name = some zoneName →
          z.Id = none →
          (getZoneID client zoneName log).1
            = Except.error (Error.zoneNotFound zoneName)) := by
  have hnone : (∀ z ∈ zones.HostedZones, z.Name ≠ some zoneName) →
      (getZoneID client zoneName log).1 = Except.error (Error.zoneNotFound zoneName) := by
    intro h
    simp [getZoneID, hlist, find_name_none zoneName _ h]
  refine ⟨?_, hnone, ?_, ?_, ?_⟩
  · intro id hid
    simp only [getZoneID, hlist] at hid
    cases hfind : zones.HostedZones.find? (fun z => decide (z.Name = some zoneName)) with
    | none => simp [hfind] at hid
    | some z =>
      obtain ⟨before, after, h1, h2, h3⟩ := find_name_split zoneName _ z hfind
      cases hzid : z.Id with
      | none => simp [hfind, hzid] at hid
      | some id0 =>
        simp [hfind, hzid] at hid
        exact ⟨before, z, after, h1, h2, h3, by rw [hzid, hid]⟩
  · intro h
    apply hnone
    intro z hz hname
    obtain ⟨suffix, hs, heq⟩ := h z hz zoneName hname
    exact append_ne_self zoneName suffix hs heq.symm
  · intro before z after id hsplit hbefore hz hid
    have hfind := find_name_found zoneName before after z hbefore hz
    rw [← hsplit] at hfind
    simp [getZoneID, hlist, hfind, hid]
  · intro before z after hsplit hbefore hz hid
    have hfind := find_name_found zoneName before after z hbefore hz
    rw [← hsplit] at hfind
    simp [getZoneID, hlist, hfind, hid]

/-- Witness for C3: in the sample zone listing the query `example.com.` is
resolved to the first entry, the query `example.com`, of which both listed
names are proper extensions, is not found, and the query `example.com.au.` is
resolved to the second entry, past the first one. -/
theorem getZoneID_exact_match_witness :
    (getZoneID exampleClient "example.com.au." []).1 = Except.ok "/hostedzone/Z2"
      ∧ (getZoneID exampleClient "example.com." []).1 = Except.ok "/hostedzone/Z1"
      ∧ (∃ before z after,
        [(⟨some "/hostedzone/Z1", some "example.com."⟩ : HostedZone),
          ⟨some "/hostedzone/Z2", some "example.com.au."⟩] = before ++ z :: after
          ∧ (∀ y ∈ before, y.Name ≠ some "example.com.")
          ∧ z.Name = some "example.com." ∧ z.Id = some "/hostedzone/Z1")
      ∧ (getZoneID exampleClient "example.com" []).1
          = Except.error (Error.zoneNotFound "example.com") :=
  ⟨(getZoneID_exact_match exampleClient "example.com.au." [] _ rfl).2.2.2.1
      [⟨some "/hostedzone/Z1", some "example.com."⟩]
      ⟨some "/hostedzone/Z2", some "example.com.au."⟩ [] "/hostedzone/Z2" rfl
      (by decide) rfl rfl,
    (getZoneID_exact_match exampleClient "example.com." [] _ rfl).2.2.2.1
      [] ⟨some "/hostedzone/Z1", some "example.com."⟩
      [⟨some "/hostedzone/Z2", some "example.com.au."⟩] "/hostedzone/Z1" rfl
      (by decide) rfl rfl,
    (getZoneID_exact_match exampleClient "example.com." [] _ rfl).1 "/hostedzone/Z1" rfl,
    (getZoneID_exact_match exampleClient "example.com" [] _ rfl).2.2.1 (by
      intro z hz name hname
      simp only [List.mem_cons, List.mem_singleton, List.not_mem_nil, or_false] at hz
      rcases hz with rfl | rfl
      · simp only [Option.some.injEq] at hname
        subst hname
        exact ⟨".", by decide, by decide⟩
      · simp only [Option.some.injEq] at hname
        subst hname
        exact ⟨".au.", by decide, by decide⟩)⟩

/-! ## Batch deleter -/

/-- C4: `deleteRecords` appends exactly one `ChangeResourceRecordSets` call to the
log; its input is scoped to the given zone identifier, its batch has one change
per candidate, the i-th change being a DELETE of the i-th candidate, and the
value returned is the error of that call. -/
theorem deleteRecords_one_batch (client : Route53) (zoneID : Option String)
    (resourceRecordSets : List ResourceRecordSet) (log : Log) :
    ∃ input : ChangeResourceRecordSetsInput,
      deleteRecords client zoneID resourceRecordSets log
          = (client.ChangeResourceRecordSets input,
              log ++ [Event.call (Call.ChangeResourceRecordSets input)])
        ∧ input.HostedZoneId = zoneID
        ∧ input.ChangeBatch.Changes.length = resourceRecordSets.length
        ∧ input.ChangeBatch.Changes
            = resourceRecordSets.map (fun rrs => (⟨some ChangeActionDelete, rrs⟩ : Change))
        ∧ (∀ (i : Nat) (rrs : ResourceRecordSet), resourceRecordSets[i]? = some rrs →
            input.ChangeBatch.Changes[i]? = some (⟨some "DELETE", rrs⟩ : Change)) := by
  refine ⟨⟨zoneID, ⟨resourceRecordSets.map
    (fun rrs => (⟨some ChangeActionDelete, rrs⟩ : Change))⟩⟩, ?_, rfl, by simp, rfl, ?_⟩
  · simp [deleteRecords, foldl_append_change]
  · intro i rrs h
    simp [List.getElem?_map, h, ChangeActionDelete]

/-! ## Pattern matcher and change batches of a run -/

/-- C2: every record set in a change batch submitted by a run satisfies the match
predicate built in `main`: the pattern compiled, the change is a DELETE, the
record's type is present and equal to `A`, and its name is present and matched
by the compiled pattern. -/
theorem submitted_records_satisfy_isMatch (compile : String → Option (String → Bool))
    (client : Route53) (regex zoneName : String) (stdin : List String)
    (input : ChangeResourceRecordSetsInput)
    (hsub : Event.call (Call.ChangeResourceRecordSets input)
      ∈ (main compile client regex zoneName stdin).events) :
    ∃ re, compile regex = some re ∧
      ∀ change ∈ input.ChangeBatch.Changes,
        change.Action = some "DELETE"
          ∧ isMatch re change.ResourceRecordSet = true
          ∧ change.ResourceRecordSet.Type_ = some "A"
          ∧ ∃ name, change.ResourceRecordSet.Name = some name ∧ re name = true := by
  have hmem := (mem_changeCalls input _).2 hsub
  rcases main_changeCalls compile client regex zoneName stdin with h | h
  · rw [h] at hmem
    simp at hmem
  · obtain ⟨zoneID, re, rrss, log, hre, _, hr, _, _, hcalls⟩ := h
    rw [hcalls] at hmem
    simp only [List.mem_singleton] at hmem
    subst hmem
    refine ⟨re, hre, ?_⟩
    intro change hchange
    simp only [List.mem_map] at hchange
    obtain ⟨rrs, hrrs, rfl⟩ := hchange
    have hm := getRecords_all_match client (some zoneID) (isMatch re) log rrss hr rrs hrrs
    exact ⟨rfl, hm, ((isMatch_iff re rrs).1 hm).1, ((isMatch_iff re rrs).1 hm).2⟩

/-- Witness for C2: the run on the sample zone with pattern `bar` and answer
"yes" submits a batch, and its records satisfy the predicate. -/
theorem submitted_records_satisfy_isMatch_witness :
    ∃ re, literalEngine "bar" = some re ∧
      ∀ change ∈ (deleteBatch (some "/hostedzone/Z1") [barRecord]).ChangeBatch.Changes,
        change.Action = some "DELETE"
          ∧ isMatch re change.ResourceRecordSet = true
          ∧ change.ResourceRecordSet.Type_ = some "A"
          ∧ ∃ name, change.ResourceRecordSet.Name = some name ∧ re name = true :=
  submitted_records_satisfy_isMatch literalEngine exampleClient "bar" "example.com." ["yes"]
    (deleteBatch (some "/hostedzone/Z1") [barRecord]) (by decide)

/-! ## Deletion guard -/

/-- On the values stored by `Scanln`: when they are any number of values that
are neither "yes" nor "no" in lower case, followed by "no", the confirmation
loop ends with the decision `false`, the run contains no change-batch call, and
a run that reached the prompt with a non-empty candidate list ends as declined;
the decision of the loop is `true` only if the first stored value that is "yes"
or "no" in lower case is "yes". -/
theorem stored_no_submits_nothing (invalids rest : List String)
    (hinv : ∀ token ∈ invalids, ¬ isAnswer token) :
    (∀ log, (confirm (invalids ++ "no" :: rest) log).1 = some false)
      ∧ (∀ (compile : String → Option (String → Bool)) (client : Route53)
          (regex zoneName : String) (input : ChangeResourceRecordSetsInput),
          Event.call (Call.ChangeResourceRecordSets input)
            ∉ (main compile client regex zoneName (invalids ++ "no" :: rest)).events)
      ∧ (∀ (compile : String → Option (String → Bool)) (client : Route53)
          (regex zoneName zoneID : String) (re : String → Bool)
          (rrss : List ResourceRecordSet),
          3 ≤ regex.utf8ByteSize → zoneName ≠ "" →
          (getZoneID client zoneName []).1 = Except.ok zoneID →
          compile regex = some re →
          (getRecords client (some zoneID) (isMatch re) []).1 = Except.ok rrss →
          rrss ≠ [] →
          (main compile client regex zoneName (invalids ++ "no" :: rest)).outcome
            = Outcome.declined)
      ∧ (∀ (responses : List String) (log : Log),
          (confirm responses log).1 = some true →
          ∃ before token after, responses = before ++ token :: after
            ∧ (∀ t ∈ before, ¬ isAnswer t) ∧ ToLower token = "yes") := by
  have hno : ∀ log, confirm (invalids ++ "no" :: rest) log
      = (some false, log ++ List.replicate invalids.length (Event.stdout promptText)
          ++ [Event.stdout promptText]) := by
    intro log
    rw [confirm_skip invalids _ log hinv]
    have hlow : ToLower "no" = "no" := by decide
    simp [confirm, hlow]
  refine ⟨fun log => by rw [hno], ?_, ?_, fun responses log h =>
    confirm_true_split responses log h⟩
  · intro compile client regex zoneName input hmem
    have hmem2 := (mem_changeCalls input _).2 hmem
    rcases main_changeCalls compile client regex zoneName (invalids ++ "no" :: rest)
      with h | h
    · rw [h] at hmem2
      simp at hmem2
    · obtain ⟨_, _, _, _, _, _, _, _, htrue, _⟩ := h
      rw [hno] at htrue
      simp at htrue
  · intro compile client regex zoneName zoneID re rrss h3 h2 hz hre hr hne
    have h1 : regex ≠ "" := by
      intro h
      have := utf8ByteSize_empty regex h
      omega
    rw [main_after_scan compile client regex zoneName _ zoneID re rrss h1 h2 h3 hz hre hr hne,
      hno]

/-- Two invalid stored values, then "no", on the sample zone. -/
theorem stored_no_submits_nothing_example :
    (confirm (["", "maybe"] ++ "no" :: ["yes"]) []).1 = some false
      ∧ (main literalEngine exampleClient "bar" "example.com."
          (["", "maybe"] ++ "no" :: ["yes"])).outcome = Outcome.declined :=
  ⟨(stored_no_submits_nothing ["", "maybe"] ["yes"] (by decide)).1 [],
    (stored_no_submits_nothing ["", "maybe"] ["yes"] (by decide)).2.2.1
      literalEngine exampleClient "bar" "example.com." "/hostedzone/Z1"
      (fun name => decide ("bar".data <:+: name.data)) [barRecord]
      (by decide) (by decide) rfl rfl rfl (by decide)⟩

/-- Responses of one word each, typed line by line: when any number of them are
neither "yes" nor "no" in lower case and the next line is "no", the decision
is `false` and the run contains no change-batch call. -/
theorem single_word_responses_then_no (invalids : List String) (rest : List Char)
    (hwords : ∀ response ∈ invalids, isWord response)
    (hinv : ∀ response ∈ invalids, ¬ isAnswer response) :
    (∀ log, (confirm (choicesOf (String.mk (linesOf (invalids ++ ["no"]) ++ rest))) log).1
        = some false)
      ∧ (∀ (compile : String → Option (String → Bool)) (client : Route53)
          (regex zoneName : String) (input : ChangeResourceRecordSetsInput),
          Event.call (Call.ChangeResourceRecordSets input)
            ∉ (main compile client regex zoneName
                (choicesOf (String.mk (linesOf (invalids ++ ["no"]) ++ rest)))).events) := by
  have hall : ∀ response ∈ invalids ++ ["no"], isWord response := by
    intro response hmem
    rcases List.mem_append.1 hmem with h | h
    · exact hwords response h
    · simp only [List.mem_singleton] at h
      subst h
      exact ⟨by decide, by decide⟩
  obtain ⟨later, hlater⟩ := choicesOf_lines (invalids ++ ["no"]) rest hall
  have hshape : invalids ++ ["no"] ++ later = invalids ++ "no" :: later := by simp
  rw [hlater, hshape]
  exact ⟨(stored_no_submits_nothing invalids later hinv).1,
    (stored_no_submits_nothing invalids later hinv).2.1⟩

/-- C5, the code at the failing input: the response `yes please` is neither
"yes" nor "no", but `Scanln` stores its first word and the error is discarded;
typed before the response `no`, it makes the decision `true`, and the run on
the sample zone submits the change batch. -/
theorem confirmation_takes_first_word_of_response :
    ¬ isAnswer "yes please"
      ∧ choicesOf "yes please\nno\n" = ["yes", "lease", "no"]
      ∧ (confirm (choicesOf "yes please\nno\n") []).1 = some true
      ∧ changeRequestsSent exampleClient
          (main literalEngine exampleClient "bar" "example.com."
            (choicesOf "yes please\nno\n")).events
          = [deleteBatch (some "/hostedzone/Z1") [barRecord]]
      ∧ (main literalEngine exampleClient "bar" "example.com."
          (choicesOf "yes please\nno\n")).outcome = Outcome.deleted := by
  decide

/-! ## Input validation -/

/-- C7, counterexample: the empty pattern has fewer than 3 characters, but the
run does not report it as too short: it prints the flag defaults and exits with
status 1. The pattern `éé` has 2 characters and 4 bytes; the run accepts it,
resolves the zone, compiles the pattern and lists the records. -/
theorem short_pattern_counterexample :
    "".length < 3
      ∧ main literalEngine exampleClient "" "example.com." ["yes"]
          = ⟨[Event.printDefaults], Outcome.usageExit⟩
      ∧ "éé".length < 3
      ∧ main literalEngine exampleClient "éé" "example.com." ["yes"]
          = ⟨[Event.call (Call.ListHostedZonesByName ⟨some "example.com."⟩),
              Event.mustCompile "éé",
              Event.call (Call.ListResourceRecordSetsPages ⟨some "/hostedzone/Z1"⟩),
              Event.stdout "There are no matching routes.\n"], Outcome.noMatches⟩ := by
  decide

/-- C7, amended: for every pattern of fewer than 3 bytes (such a pattern has
fewer than 3 characters) the run makes no remote call and never reaches
`regexp.MustCompile`; when pattern and zone name are both non-empty the run
prints the too-short message and returns, and when one of them is empty it
prints the flag defaults and exits with status 1. -/
theorem short_pattern_rejected_before_compile
    (compile : String → Option (String → Bool)) (client : Route53)
    (regex zoneName : String) (stdin : List String) (hshort : regex.utf8ByteSize < 3) :
    regex.length < 3
      ∧ remoteCalls (main compile client regex zoneName stdin).events = []
      ∧ compiledPatterns (main compile client regex zoneName stdin).events = []
      ∧ (regex ≠ "" → zoneName ≠ "" →
          main compile client regex zoneName stdin
            = ⟨[Event.stdout tooShortText], Outcome.tooShort⟩)
      ∧ (regex = "" ∨ zoneName = "" →
          main compile client regex zoneName stdin
            = ⟨[Event.printDefaults], Outcome.usageExit⟩) := by
  have h := main_short compile client regex zoneName stdin hshort
  refine ⟨lt_of_le_of_lt (length_le_utf8ByteSize regex) hshort, ?_, ?_, h.1, h.2⟩
  · by_cases hu : regex = "" ∨ zoneName = ""
    · rw [h.2 hu]; rfl
    · rw [h.1 (fun e => hu (Or.inl e)) (fun e => hu (Or.inr e))]; rfl
  · by_cases hu : regex = "" ∨ zoneName = ""
    · rw [h.2 hu]; rfl
    · rw [h.1 (fun e => hu (Or.inl e)) (fun e => hu (Or.inr e))]; rfl

/-- Witness for C7: the two-byte pattern `ba` on the sample zone. -/
theorem short_pattern_rejected_before_compile_witness :
    remoteCalls (main literalEngine exampleClient "ba" "example.com." ["yes"]).events = []
      ∧ compiledPatterns
          (main literalEngine exampleClient "ba" "example.com." ["yes"]).events = []
      ∧ main literalEngine exampleClient "ba" "example.com." ["yes"]
          = ⟨[Event.stdout tooShortText], Outcome.tooShort⟩ :=
  ⟨(short_pattern_rejected_before_compile literalEngine exampleClient "ba" "example.com."
      ["yes"] (by decide)).2.1,
    (short_pattern_rejected_before_compile literalEngine exampleClient "ba" "example.com."
      ["yes"] (by decide)).2.2.1,
    (short_pattern_rejected_before_compile literalEngine exampleClient "ba" "example.com."
      ["yes"] (by decide)).2.2.2.1 (by decide) (by decide)⟩

/-- C8, counterexample: the pattern `(ba` does not compile, and the run has
already issued the zone listing call when `regexp.MustCompile` panics. -/
theorem invalid_pattern_counterexample :
    (literalEngine "(ba").isNone = true
      ∧ main literalEngine exampleClient "(ba" "example.com." ["yes"]
          = ⟨[Event.call (Call.ListHostedZonesByName ⟨some "example.com."⟩),
              Event.mustCompile "(ba"], Outcome.panicked⟩
      ∧ remoteCalls (main literalEngine exampleClient "(ba" "example.com." ["yes"]).events
          = [Call.ListHostedZonesByName ⟨some "example.com."⟩] := by
  decide

/-- C8, amended: for every pattern that does not compile, no record listing and
no change batch is issued. When the pattern has at least 3 bytes and the zone
name is non-empty the run first issues the zone listing call: if the zone is
resolved the run then panics in `regexp.MustCompile`, otherwise it ends with the
error of the zone lookup. When the pattern has fewer than 3 bytes or the zone
name is empty the run makes no remote call. -/
theorem invalid_pattern_found_after_zone_lookup
    (compile : String → Option (String → Bool)) (client : Route53)
    (regex zoneName : String) (stdin : List String) (hbad : compile regex = none) :
    (∀ input, Event.call (Call.ListResourceRecordSetsPages input)
        ∉ (main compile client regex zoneName stdin).events)
      ∧ (∀ input, Event.call (Call.ChangeResourceRecordSets input)
        ∉ (main compile client regex zoneName stdin).events)
      ∧ (3 ≤ regex.utf8ByteSize → zoneName ≠ "" →
          (∀ zoneID, (getZoneID client zoneName []).1 = Except.ok zoneID →
            main compile client regex zoneName stdin
              = ⟨[Event.call (Call.ListHostedZonesByName ⟨some zoneName⟩),
                  Event.mustCompile regex], Outcome.panicked⟩)
          ∧ (∀ err, (getZoneID client zoneName []).1 = Except.error err →
            main compile client regex zoneName stdin
              = ⟨[Event.call (Call.ListHostedZonesByName ⟨some zoneName⟩)],
                  Outcome.fatal err⟩))
      ∧ (regex.utf8ByteSize < 3 ∨ zoneName = "" →
          remoteCalls (main compile client regex zoneName stdin).events = []) := by
  have hlong : 3 ≤ regex.utf8ByteSize → zoneName ≠ "" →
      remoteCalls (main compile client regex zoneName stdin).events
        = [Call.ListHostedZonesByName ⟨some zoneName⟩] := by
    intro h3 h2
    rw [main_invalid_pattern compile client regex zoneName stdin h3 h2 hbad]
    cases (getZoneID client zoneName []).1 <;> rfl
  have hnone : regex.utf8ByteSize < 3 ∨ zoneName = "" →
      remoteCalls (main compile client regex zoneName stdin).events = [] := by
    intro h
    rcases h with h | h
    · exact (main_short_no_remote_call compile client regex zoneName stdin h)
    · simp [main, h, remoteCalls]
  have hcalls : ∀ c ∈ remoteCalls (main compile client regex zoneName stdin).events,
      c = Call.ListHostedZonesByName ⟨some zoneName⟩ := by
    intro c hc
    by_cases h3 : 3 ≤ regex.utf8ByteSize
    · by_cases h2 : zoneName = ""
      · rw [hnone (Or.inr h2)] at hc
        simp at hc
      · rw [hlong h3 h2] at hc
        simpa using hc
    · rw [hnone (Or.inl (by omega))] at hc
      simp at hc
  refine ⟨?_, ?_, ?_, hnone⟩
  · intro input hmem
    have := hcalls _ ((mem_remoteCalls _ _).2 hmem)
    simp at this
  · intro input hmem
    have := hcalls _ ((mem_remoteCalls _ _).2 hmem)
    simp at this
  · intro h3 h2
    constructor
    · intro zoneID hz
      rw [main_invalid_pattern compile client regex zoneName stdin h3 h2 hbad, hz]
    · intro err hz
      rw [main_invalid_pattern compile client regex zoneName stdin h3 h2 hbad, hz]

/-- Witness for C8: the pattern `(ba` on the sample zone. -/
theorem invalid_pattern_found_after_zone_lookup_witness :
    main literalEngine exampleClient "(ba" "example.com." ["yes"]
      = ⟨[Event.call (Call.ListHostedZonesByName ⟨some "example.com."⟩),
          Event.mustCompile "(ba"], Outcome.panicked⟩ :=
  (invalid_pattern_found_after_zone_lookup literalEngine exampleClient "(ba" "example.com."
    ["yes"] rfl).2.2.1 (by decide) (by decide) |>.1 "/hostedzone/Z1" rfl

/-! ## The scenario of the zone `example.com.` -/

/-- C6, counterexample: in the scenario, the run with name pattern `ba` is
rejected as too short; it finds no match, makes no remote call and submits no
change batch although the operator answers "yes". -/
theorem scenario_pattern_ba_counterexample :
    main literalEngine exampleClient "ba" "example.com." ["yes"]
        = ⟨[Event.stdout tooShortText], Outcome.tooShort⟩
      ∧ changeCalls (main literalEngine exampleClient "ba" "example.com." ["yes"]).events
        = [] := by
  decide

/-- C6, amended: in the scenario (zone `example.com.` resolved, its listing made
of `foo.example.com.` (A), `bar.example.com.` (A) and `baz.example.com.` (TXT)
in any paging) a run with pattern `ba` is rejected as too short with no remote
call. A run with a pattern of at least 3 bytes whose compiled expression matches
`bar.example.com.` and not `foo.example.com.` finds exactly the one match
`bar.example.com.`, displays it, and when the operator answers "yes" submits
exactly one change batch holding exactly one delete action, for that record. -/
theorem scenario_example_zone (compile : String → Option (String → Bool))
    (client : Route53) (zoneID : String) (pages : List ListResourceRecordSetsOutput)
    (err : Option Error) (p1 p2 p3 : Nat) (stdin : List String)
    (hz : (getZoneID client "example.com." []).1 = Except.ok zoneID)
    (hscript : client.ListResourceRecordSets ⟨some zoneID⟩ = ⟨flagLast pages, err⟩)
    (hrecords : allRecords pages =
      [⟨some "foo.example.com.", some "A", p1⟩, ⟨some "bar.example.com.", some "A", p2⟩,
        ⟨some "baz.example.com.", some "TXT", p3⟩]) :
    main compile client "ba" "example.com." stdin
        = ⟨[Event.stdout tooShortText], Outcome.tooShort⟩
      ∧ ∀ (regex : String) (re : String → Bool) (rest : List String),
          3 ≤ regex.utf8ByteSize → compile regex = some re →
          re "bar.example.com." = true → re "foo.example.com." = false →
          (getRecords client (some zoneID) (isMatch re) []).1
              = Except.ok [⟨some "bar.example.com.", some "A", p2⟩]
            ∧ main compile client regex "example.com." ("yes" :: rest)
              = ⟨[Event.call (Call.ListHostedZonesByName ⟨some "example.com."⟩),
                  Event.mustCompile regex,
                  Event.call (Call.ListResourceRecordSetsPages ⟨some zoneID⟩),
                  Event.stdout "Matching routes are:\n",
                  Event.stdout "  -- bar.example.com.\n",
                  Event.stdout promptText,
                  Event.stdout "deleting...\n",
                  Event.call (Call.ChangeResourceRecordSets ⟨some zoneID,
                    ⟨[⟨some "DELETE", ⟨some "bar.example.com.", some "A", p2⟩⟩]⟩⟩)],
                match client.ChangeResourceRecordSets ⟨some zoneID,
                    ⟨[⟨some "DELETE", ⟨some "bar.example.com.", some "A", p2⟩⟩]⟩⟩ with
                | some err => Outcome.fatal err
                | none => Outcome.deleted⟩ := by
  constructor
  · exact (main_short compile client "ba" "example.com." stdin (by decide)).1
      (by decide) (by decide)
  · intro regex re rest h3 hre hbar hfoo
    have hpages : pages ≠ [] := by
      intro h
      rw [h] at hrecords
      simp [allRecords] at hrecords
    have hr : (getRecords client (some zoneID) (isMatch re) []).1
        = Except.ok [⟨some "bar.example.com.", some "A", p2⟩] := by
      rw [getRecords_flagLast client (some zoneID) (isMatch re) [] pages err hscript
        (Or.inr hpages), hrecords]
      have hT : ¬ ("TXT" = RRTypeA) := by decide
      simp [List.filter, isMatch, hbar, hfoo, RRTypeA, hT]
    refine ⟨hr, ?_⟩
    have h1 : regex ≠ "" := by
      intro h
      have := utf8ByteSize_empty regex h
      omega
    have hyes : ToLower "yes" = "yes" := by decide
    have hline : displayLine "bar.example.com." = "  -- bar.example.com.\n" := by decide
    rw [main_after_scan compile client regex "example.com." _ zoneID re _ h1 (by decide) h3
      hz hre hr (by simp)]
    simp [confirm, hyes, logAtPrompt, recordNames, hline, deleteBatch, ChangeActionDelete]

/-- Witness for C6: the sample zone, scanned with the pattern `bar`. -/
theorem scenario_example_zone_witness :
    (getRecords exampleClient (some "/hostedzone/Z1")
        (isMatch (fun name => decide ("bar".data <:+: name.data))) []).1
      = Except.ok [⟨some "bar.example.com.", some "A", 2⟩] :=
  ((scenario_example_zone literalEngine exampleClient "/hostedzone/Z1"
    [⟨[fooRecord, barRecord]⟩, ⟨[bazRecord]⟩] none 1 2 3 [] rfl rfl rfl).2 "bar"
    (fun name => decide ("bar".data <:+: name.data)) [] (by decide) rfl
    (by decide) (by decide)).1

/-! ## Empty candidate set -/

/-- C9: `deleteRecords` called with an empty sequence of record sets issues no
remote change-batch call, for every zone identifier: the client method is
invoked with an empty batch, which the SDK's parameter validation rejects
before anything is sent, and the validation error is returned. A run never gets
there: every change batch handed to the client by a run is non-empty, and a run
whose scan returns no match ends after the zone and record listings with the
message that there are no matching routes, without prompt and without change
batch. -/
theorem deleteRecords_empty_sends_nothing (client : Route53) (zoneID : Option String)
    (log : Log) :
    changeRequestsSent client (deleteRecords client zoneID [] log).2
        = changeRequestsSent client log
      ∧ (deleteRecords client zoneID [] log).1 = some Error.invalidParameter
      ∧ (∀ (compile : String → Option (String → Bool))
          (regex zoneName : String) (stdin : List String)
          (input : ChangeResourceRecordSetsInput),
          Event.call (Call.ChangeResourceRecordSets input)
              ∈ (main compile client regex zoneName stdin).events →
            input.ChangeBatch.Changes ≠ [])
      ∧ (∀ (compile : String → Option (String → Bool))
          (regex zoneName : String) (stdin : List String) (zoneID : String)
          (re : String → Bool),
          3 ≤ regex.utf8ByteSize → zoneName ≠ "" →
          (getZoneID client zoneName []).1 = Except.ok zoneID →
          compile regex = some re →
          (getRecords client (some zoneID) (isMatch re) []).1 = Except.ok [] →
          main compile client regex zoneName stdin
            = ⟨[Event.call (Call.ListHostedZonesByName ⟨some zoneName⟩),
                Event.mustCompile regex,
                Event.call (Call.ListResourceRecordSetsPages ⟨some zoneID⟩),
                Event.stdout "There are no matching routes.\n"], Outcome.noMatches⟩) := by
  have hinvalid : Validate client.validPayload ⟨zoneID, ⟨[]⟩⟩ = false := by
    simp [Validate]
  refine ⟨?_, ?_, ?_, ?_⟩
  · simp [deleteRecords, changeRequestsSent, changeCalls_append, changeCalls, hinvalid]
  · simp [deleteRecords, Route53.ChangeResourceRecordSets, hinvalid]
  · intro compile regex zoneName stdin input hmem
    have hmem2 := (mem_changeCalls input _).2 hmem
    rcases main_changeCalls compile client regex zoneName stdin with h | h
    · rw [h] at hmem2
      simp at hmem2
    · obtain ⟨zoneID, re, rrss, log, _, _, _, hne, _, hcalls⟩ := h
      rw [hcalls] at hmem2
      simp only [List.mem_singleton] at hmem2
      subst hmem2
      simpa using hne
  · intro compile regex zoneName stdin zoneID re h3 h2 hz hre hr
    exact main_no_matches compile client regex zoneName stdin zoneID re h3 h2 hz hre hr

/-- Witness for C9: on the sample client an empty candidate list sends nothing,
and the pattern `qux`, which matches no record of the sample zone, ends the
run before the prompt. -/
theorem deleteRecords_empty_sends_nothing_witness :
    changeRequestsSent exampleClient
        (deleteRecords exampleClient (some "/hostedzone/Z1") [] []).2 = []
      ∧ main literalEngine exampleClient "qux" "example.com." ["yes"]
        = ⟨[Event.call (Call.ListHostedZonesByName ⟨some "example.com."⟩),
            Event.mustCompile "qux",
            Event.call (Call.ListResourceRecordSetsPages ⟨some "/hostedzone/Z1"⟩),
            Event.stdout "There are no matching routes.\n"], Outcome.noMatches⟩
      ∧ (deleteBatch (some "/hostedzone/Z1") [barRecord]).ChangeBatch.Changes ≠ [] :=
  ⟨(deleteRecords_empty_sends_nothing exampleClient (some "/hostedzone/Z1") []).1,
    (deleteRecords_empty_sends_nothing exampleClient (some "/hostedzone/Z1") []).2.2.2
      literalEngine "qux" "example.com." ["yes"] "/hostedzone/Z1"
      (fun name => decide ("qux".data <:+: name.data)) (by decide) (by decide) rfl rfl rfl,
    (deleteRecords_empty_sends_nothing exampleClient (some "/hostedzone/Z1") []).2.2.1
      literalEngine "bar" "example.com." ["yes"]
      (deleteBatch (some "/hostedzone/Z1") [barRecord]) (by decide)⟩

/-! ## Display of the matches -/

/-- C10, the code at the failing input: only the first `\052` of a name is
translated, so the name `\052.\052.example.com.` is shown with one `\052` left;
the name `\052.example.com.` of the scenario is shown as `*.example.com.`. -/
theorem displayLine_translates_first_escape_only :
    displayLine "\\052.\\052.example.com." = "  -- *.\\052.example.com.\n"
      ∧ Event.stdout "  -- *.\\052.example.com.\n"
          ∈ (main literalEngine wildcardClient "052" "example.com." ["no"]).events
      ∧ "\\052".data <:+: (displayLine "\\052.\\052.example.com.").data
      ∧ displayLine "\\052.example.com." = "  -- *.example.com.\n" := by
  decide

end DeleteRoutes
